import Mathlib

/-!
# Verification of the texoxide frecency store and selection menu

Shallow embedding of `src/main.rs` (Arxari/texoxide): a SQLite-backed
"frecency" store of file paths with `add` / `remove_entry` / `cleanup` /
`query` operations, and a terminal selection menu.

Modelling conventions:
* The SQLite table `files(path TEXT PRIMARY KEY, last_accessed DATETIME,
  frequency INTEGER)` is a `List FileEntry`; timestamps are `Nat`.
* The filesystem is a parameter `FS`: `stat` models the OS metadata probe
  (`none` = the probe itself failed, as Rust's `Path::exists` absorbs such
  failures into `false`), `canonicalize` models
  `std::fs::canonicalize` followed by the `Utf8PathBuf` conversion
  (`ioErr` = canonicalize returned `Err`, `notUtf8` = the canonical path
  was not valid UTF-8).
* Each fallible store operation returns `Except TxError Unit × Store`:
  the Rust `Result` together with the table contents after the call
  (the table survives a failed call, so it is returned in both cases).
* The SQL `LIKE … ESCAPE '\'` operator is embedded as `likeMatch`:
  `%` matches any sequence, `_` one character, the escape character makes
  the next pattern character literal, and ASCII letters compare
  case-insensitively (SQLite's default `LIKE` semantics).
-/

/-- A row of the `files` table: `path TEXT PRIMARY KEY`,
`last_accessed DATETIME`, `frequency INTEGER`. -/
structure FileEntry where
  path : String
  last_accessed : Nat
  frequency : Nat
deriving DecidableEq, Repr

/-- The `files` table contents. -/
abbrev Store := List FileEntry

/-- Error kinds surfaced by the store operations (spec §7). -/
inductive TxError where
  /-- `add`: "File {path} does not exist". -/
  | nonExistentFile
  /-- `add`: `canonicalize` itself returned an error (propagated by `?`). -/
  | canonicalizeFailed
  /-- `add`: "Invalid file path encoding". -/
  | pathEncodingError
  /-- `remove_entry`: "No entry found for {path}". -/
  | notFound
deriving DecidableEq, Repr

/-- Result of `std::fs::canonicalize` plus the UTF-8 conversion. -/
inductive CanonResult where
  | ok (s : String)
  | ioErr
  | notUtf8
deriving DecidableEq, Repr

/-- The filesystem collaborator interface (spec §6). -/
structure FS where
  /-- Metadata probe underlying `Path::exists`; `none` models a probe
  failure (permission error etc.), which `Path::exists` reports as
  `false`. -/
  stat : String → Option Bool
  /-- `canonicalize` composed with the `Utf8PathBuf` conversion. -/
  canonicalize : String → CanonResult

/-- Rust's `path.as_std_path().exists()`: a failed probe counts as
"does not exist". -/
def pathExists (fs : FS) (p : String) : Bool :=
  (fs.stat p).getD false

/-- The key used by `remove_entry`: the canonical path when resolution
succeeds, the raw input string as fallback otherwise
(`…canonicalize().ok().and_then(…).map_or_else(|| file_path.to_string(), …)`). -/
def canonKey (fs : FS) (p : String) : String :=
  match fs.canonicalize p with
  | .ok s => s
  | _ => p

/-- ASCII case folding as SQLite's `LIKE` applies it: upper-case ASCII
letters map to lower case, everything else is unchanged. -/
def foldCase (c : Char) : Char :=
  if 'A' ≤ c ∧ c ≤ 'Z' then Char.ofNat (c.toNat + 32) else c

/-- SQLite `LIKE` comparison of one pattern character with one string
character: equal after ASCII case folding. -/
def charLikeEq (p c : Char) : Bool :=
  foldCase p = foldCase c

/-- SQLite's `LIKE … ESCAPE esc` on character lists: `likeMatch esc pat s`
is true iff the string `s` matches the pattern `pat`. `%` matches any
(possibly empty) sequence, `_` matches exactly one character, `esc`
makes the following pattern character literal (still case-folded), and a
pattern ending in a bare `esc` matches nothing. -/
def likeMatch (esc : Char) : List Char → List Char → Bool
  | [], s => s.isEmpty
  | p :: ps, s =>
    if p = '%' then
      s.tails.any (fun t => likeMatch esc ps t)
    else if p = '_' then
      match s with
      | [] => false
      | _ :: ss => likeMatch esc ps ss
    else if p = esc then
      match ps with
      | [] => false
      | q :: ps' =>
        match s with
        | [] => false
        | c :: ss => charLikeEq q c && likeMatch esc ps' ss
    else
      match s with
      | [] => false
      | c :: ss => charLikeEq p c && likeMatch esc ps ss

/-- The `ON CONFLICT(path) DO UPDATE` upsert of `Texoxide::add`:
`INSERT INTO files (path, frequency) VALUES (?, 1)` (so `last_accessed`
takes its default `CURRENT_TIMESTAMP`, here `now`), and on a conflicting
`path` instead `SET frequency = frequency + 1, last_accessed =
CURRENT_TIMESTAMP`. -/
def upsert (st : Store) (p : String) (now : Nat) : Store :=
  if st.any (fun e => e.path = p) then
    st.map (fun e =>
      if e.path = p then
        { e with frequency := e.frequency + 1, last_accessed := now }
      else e)
  else
    st ++ [⟨p, now, 1⟩]

namespace Texoxide

/-- `Texoxide::add`: bail with `nonExistentFile` when the target is
missing from disk, resolve the canonical UTF-8 path, then run the
atomic upsert. Returns the Rust `Result` and the table after the call. -/
def add (fs : FS) (now : Nat) (st : Store) (file_path : String) :
    Except TxError Unit × Store :=
  if !pathExists fs file_path then
    (.error .nonExistentFile, st)
  else
    match fs.canonicalize file_path with
    | .ioErr => (.error .canonicalizeFailed, st)
    | .notUtf8 => (.error .pathEncodingError, st)
    | .ok abs_path => (.ok (), upsert st abs_path now)

/-- `Texoxide::remove_entry`: resolve the key (canonical path, or the raw
string when resolution fails), `DELETE FROM files WHERE path = ?`, and
fail with `notFound` when the delete touched zero rows. -/
def remove_entry (fs : FS) (st : Store) (file_path : String) :
    Except TxError Unit × Store :=
  let abs_path := canonKey fs file_path
  let count := st.countP (fun e => e.path = abs_path)
  let st' := st.filter (fun e => e.path ≠ abs_path)
  if count = 0 then (.error .notFound, st') else (.ok (), st')

/-- The table after `Texoxide::cleanup`: `SELECT path FROM files`, collect
the paths whose target fails the existence probe, then delete each
collected path. -/
def cleanupStore (fs : FS) (st : Store) : Store :=
  let to_remove := (st.map (fun e => e.path)).filter
    (fun p => !pathExists fs p)
  st.filter (fun e => e.path ∉ to_remove)

/-- `Texoxide::cleanup`: the existence probe never aborts the pass
(`Path::exists` is infallible), so the run always succeeds with the
filtered table. -/
def cleanup (fs : FS) (st : Store) : Except TxError Unit × Store :=
  (.ok (), cleanupStore fs st)

/-- `ORDER BY frequency DESC, last_accessed DESC`: `a` may come before
`b` when `a` has strictly larger frequency, or equal frequency and at
least as large a `last_accessed`. -/
def RankGE (a b : FileEntry) : Prop :=
  b.frequency < a.frequency ∨
    (a.frequency = b.frequency ∧ b.last_accessed ≤ a.last_accessed)

instance : DecidableRel RankGE := fun a b =>
  inferInstanceAs (Decidable (_ ∨ _ ∧ _))

instance : IsTotal FileEntry RankGE :=
  ⟨fun a b => by unfold RankGE; omega⟩

instance : IsTrans FileEntry RankGE :=
  ⟨fun a b c hab hbc => by unfold RankGE at *; omega⟩

/-- The rows produced by `Texoxide::query`'s statement
`SELECT path FROM files WHERE path LIKE ? ESCAPE '\' ORDER BY
frequency DESC, last_accessed DESC LIMIT 20` with the bound pattern
`%search_term%`. -/
def queryRows (st : Store) (search_term : String) : List FileEntry :=
  let pat := "%" ++ search_term ++ "%"
  (List.insertionSort RankGE
    (st.filter (fun e => likeMatch '\\' pat.data e.path.data))).take 20

/-- `Texoxide::query`: the `path` column of `queryRows`. -/
def query (st : Store) (search_term : String) : List String :=
  (queryRows st search_term).map (fun e => e.path)

end Texoxide

/-- Modelled from the spec: "paths containing `term` as a substring" —
`startsWithChars hay needle` is true iff `needle` is a prefix of `hay`. -/
def startsWithChars : List Char → List Char → Bool
  | _, [] => true
  | [], _ :: _ => false
  | h :: hs, n :: ns => h = n && startsWithChars hs ns

/-- Modelled from the spec: `containsSub hay needle` is true iff `needle`
occurs contiguously (as a literal substring) inside `hay`. -/
def containsSub (hay needle : List Char) : Bool :=
  startsWithChars hay needle ||
    match hay with
    | [] => false
    | _ :: hs => containsSub hs needle

/-! ## Selection menu -/

/-- The `Menu` of `main.rs`, with ratatui's `ListState` reduced to its
`selected : Option<usize>` field (the only part the code reads). -/
structure Menu where
  items : List String
  selected : Option Nat
  title : String
deriving DecidableEq, Repr

/-- `usize` subtraction of 1 as Rust performs it in `items.len() - 1`:
`none` models the unsigned-underflow panic when the length is `0`. -/
def usizeSub1 (n : Nat) : Option Nat :=
  if n = 0 then none else some (n - 1)

namespace Menu

/-- `Menu::new`: `state.select(Some(0))` unconditionally, even over an
empty item list. -/
def new (items : List String) (title : String) : Menu :=
  ⟨items, some 0, title⟩

/-- `Menu::next`: wrap to `0` from `items.len() - 1`, else increment.
`none` models the underflow panic of `items.len() - 1` on an empty
list; with `selected == None` the closure is skipped and `0` selected. -/
def next (m : Menu) : Option Menu :=
  match m.selected with
  | none => some { m with selected := some 0 }
  | some i =>
    match usizeSub1 m.items.length with
    | none => none
    | some lastIdx =>
      some { m with selected := some (if lastIdx ≤ i then 0 else i + 1) }

/-- `Menu::previous`: wrap to `items.len() - 1` from `0`, else decrement.
`none` models the underflow panic on an empty list (reached only in the
`i == 0` branch). -/
def previous (m : Menu) : Option Menu :=
  match m.selected with
  | none => some { m with selected := some 0 }
  | some i =>
    if i = 0 then
      match usizeSub1 m.items.length with
      | none => none
      | some lastIdx => some { m with selected := some lastIdx }
    else
      some { m with selected := some (i - 1) }

end Menu

/-- The events one loop iteration of `TermUI::show_search_results`
distinguishes: `Up`, `Down`, `Enter`, `Esc` key presses, and everything
else (other keys, non-press key events, non-key events). -/
inductive MenuEvent where
  | navigateUp
  | navigateDown
  | confirm
  | cancel
  | other
deriving DecidableEq, Repr

/-- One iteration of the `show_search_results` event loop: `inl` keeps
looping with the updated menu, `inr` returns (`Enter` yields the cursor,
`Esc` yields `none`); the outer `none` models a navigation panic. -/
def menuStep (m : Menu) (e : MenuEvent) : Option (Menu ⊕ Option Nat) :=
  match e with
  | .navigateUp => (m.previous).map Sum.inl
  | .navigateDown => (m.next).map Sum.inl
  | .confirm => some (Sum.inr m.selected)
  | .cancel => some (Sum.inr none)
  | .other => some (Sum.inl m)

/-- A sequence of `Texoxide::add` calls on the same raw path, one per
timestamp, threading the table through (each call's table feeds the
next, whether the call succeeded or not). -/
def addSeq (fs : FS) (p : String) (st : Store) : List Nat → Store
  | [] => st
  | t :: ts => addSeq fs p (Texoxide.add fs t st p).2 ts

/-! ## Helper lemmas -/

/-- Upsert into a table with no row for `p` appends a fresh row with
frequency `1`. -/
lemma upsert_not_mem (st : Store) (p : String) (now : Nat)
    (hfree : ∀ e ∈ st, e.path ≠ p) :
    upsert st p now = st ++ [⟨p, now, 1⟩] := by
  unfold upsert
  have h : st.any (fun e => e.path = p) = false := by
    rw [List.any_eq_false]
    intro e he
    simpa using hfree e he
  simp [h]

/-- Upsert into a table whose only row for `p` is the final one updates
just that row: frequency increments, `last_accessed` becomes `now`. -/
lemma upsert_conflict (st : Store) (p : String) (now t0 f0 : Nat)
    (hfree : ∀ e ∈ st, e.path ≠ p) :
    upsert (st ++ [⟨p, t0, f0⟩]) p now = st ++ [⟨p, now, f0 + 1⟩] := by
  unfold upsert
  have h : (st ++ [(⟨p, t0, f0⟩ : FileEntry)]).any
      (fun e => e.path = p) = true := by
    simp
  simp only [h, if_true]
  rw [List.map_append]
  congr 1
  · refine List.map_congr_left ?_ |>.trans (List.map_id _)
    intro e he
    simp [hfree e he]
  · simp

/-- A successful `add` (target on disk, path already canonical) is
exactly the upsert. -/
lemma add_ok (fs : FS) (now : Nat) (st : Store) (p : String)
    (hex : pathExists fs p = true) (hca : fs.canonicalize p = .ok p) :
    Texoxide.add fs now st p = (.ok (), upsert st p now) := by
  unfold Texoxide.add
  simp [hex, hca]

/-- Running `addSeq` over a table that already holds the row
`⟨p, t0, f0⟩` at the end (and no other row for `p`) bumps the frequency
once per call and leaves the last timestamp. -/
lemma addSeq_conflicts (fs : FS) (p : String)
    (hex : pathExists fs p = true) (hca : fs.canonicalize p = .ok p) :
    ∀ (ts : List Nat) (st : Store) (t0 f0 : Nat),
      (∀ e ∈ st, e.path ≠ p) →
      addSeq fs p (st ++ [⟨p, t0, f0⟩]) ts =
        st ++ [⟨p, ts.getLastD t0, f0 + ts.length⟩] := by
  intro ts
  induction ts with
  | nil => intro st t0 f0 _; simp [addSeq]
  | cons t ts ih =>
    intro st t0 f0 hfree
    show addSeq fs p (Texoxide.add fs t (st ++ [⟨p, t0, f0⟩]) p).2 ts = _
    rw [add_ok fs t _ p hex hca]
    show addSeq fs p (upsert (st ++ [⟨p, t0, f0⟩]) p t) ts = _
    rw [upsert_conflict st p t t0 f0 hfree, ih st t (f0 + 1) hfree]
    have h1 : (t :: ts).getLastD t0 = ts.getLastD t := by
      cases ts <;> simp [List.getLastD]
    have h2 : f0 + 1 + ts.length = f0 + (t :: ts).length := by
      simp
      omega
    rw [h1, h2]

/-- The two-phase cleanup (collect missing paths, then delete each) keeps
exactly the rows whose existence probe succeeds. -/
lemma cleanupStore_eq_filter (fs : FS) (st : Store) :
    Texoxide.cleanupStore fs st =
      st.filter (fun e => pathExists fs e.path) := by
  unfold Texoxide.cleanupStore
  refine List.filter_congr ?_
  intro e he
  have hmem : e.path ∈ st.map (fun x => x.path) := List.mem_map.mpr ⟨e, he, rfl⟩
  by_cases h : pathExists fs e.path
  · simp [List.mem_filter, h]
  · simp [List.mem_filter, h, hmem]

/-- A delete that touched zero rows left the table unchanged. -/
lemma filter_ne_of_countP_zero (st : Store) (k : String)
    (h : st.countP (fun e => e.path = k) = 0) :
    st.filter (fun e => e.path ≠ k) = st := by
  rw [List.countP_eq_zero] at h
  refine List.filter_eq_self.mpr ?_
  intro e he
  simpa using fun hc => by simpa [hc] using h e he

/-- The upsert always leaves some row keyed by the upserted path. -/
lemma upsert_mem (st : Store) (p : String) (now : Nat) :
    ∃ e ∈ upsert st p now, e.path = p := by
  unfold upsert
  by_cases h : st.any (fun e => decide (e.path = p))
  · simp only [h, if_true]
    obtain ⟨e, he, hp⟩ := List.any_eq_true.mp h
    have hp' : e.path = p := by simpa using hp
    exact ⟨{ e with frequency := e.frequency + 1, last_accessed := now },
      List.mem_map.mpr ⟨e, he, by simp [hp']⟩, hp'⟩
  · simp only [h, if_false]
    exact ⟨⟨p, now, 1⟩, by simp, rfl⟩

/-- Every row produced by `query`'s statement is a stored row whose path
matches the bound `LIKE` pattern. -/
lemma mem_queryRows (st : Store) (term : String) (e : FileEntry)
    (h : e ∈ Texoxide.queryRows st term) :
    e ∈ st ∧
      likeMatch '\\' ("%" ++ term ++ "%").data e.path.data = true := by
  unfold Texoxide.queryRows at h
  have h1 := (List.take_sublist _ _).subset h
  have h2 := (List.perm_insertionSort Texoxide.RankGE _).subset h1
  exact ⟨(List.mem_filter.mp h2).1, (List.mem_filter.mp h2).2⟩

/-- A pattern consisting of a single `%` matches every string. -/
lemma like_one_percent (t : List Char) :
    likeMatch '\\' ['%'] t = true := by
  show t.tails.any (fun u => likeMatch '\\' ([] : List Char) u) = true
  rw [List.any_eq_true]
  exact ⟨[], (List.mem_tails [] t).mpr List.nil_suffix, rfl⟩

/-- The pattern bound for the empty search term, `%%`, matches every
string: the empty term matches every stored entry. -/
lemma like_pattern_empty (s : List Char) :
    likeMatch '\\' ("%" ++ "" ++ "%").data s = true := by
  show s.tails.any (fun t => likeMatch '\\' ['%'] t) = true
  rw [List.any_eq_true]
  exact ⟨s, (List.mem_tails s s).mpr List.suffix_rfl, like_one_percent s⟩

/-- Every path returned by `query` is the path of a stored row. -/
lemma mem_query (st : Store) (term q : String)
    (h : q ∈ Texoxide.query st term) : ∃ e ∈ st, e.path = q := by
  unfold Texoxide.query Texoxide.queryRows at h
  obtain ⟨e, he, rfl⟩ := List.mem_map.mp h
  have h1 : e ∈ List.insertionSort Texoxide.RankGE
      (st.filter (fun x => likeMatch '\\'
        ("%" ++ term ++ "%").data x.path.data)) :=
    (List.take_sublist _ _).subset he
  have h2 := (List.perm_insertionSort Texoxide.RankGE _).subset h1
  exact ⟨e, List.mem_filter.mp h2 |>.1, rfl⟩

/-- The table after `remove_entry` never depends on whether the delete
found a row: it is the input filtered at the resolved key. -/
lemma remove_entry_snd (fs : FS) (st : Store) (p : String) :
    (Texoxide.remove_entry fs st p).2 =
      st.filter (fun e => e.path ≠ canonKey fs p) := by
  unfold Texoxide.remove_entry
  by_cases h : st.countP (fun e => e.path = canonKey fs p) = 0 <;> simp [h]

/-! ## Claim theorems -/

/-- **C5.** For every store state at call time, `cleanup` deletes exactly
those entries whose stored path does not exist on disk (the rows failing
the `Path::exists` probe), and every surviving entry is kept whole, so
its `frequency` and `last_accessed` values are unchanged. -/
theorem cleanup_filters_existing (fs : FS) (st : Store) :
    Texoxide.cleanupStore fs st =
      st.filter (fun e => pathExists fs e.path) ∧
    ∀ e : FileEntry, e ∈ Texoxide.cleanupStore fs st ↔
      (e ∈ st ∧ pathExists fs e.path = true) := by
  refine ⟨cleanupStore_eq_filter fs st, fun e => ?_⟩
  rw [cleanupStore_eq_filter fs st]
  simp [List.mem_filter]

/-- **C6.** For every path that does not exist on disk, `add` fails with
the `nonExistentFile` error and the table is returned unchanged. -/
theorem add_missing_file_error (fs : FS) (now : Nat) (st : Store)
    (p : String) (h : pathExists fs p = false) :
    Texoxide.add fs now st p = (.error .nonExistentFile, st) := by
  unfold Texoxide.add
  simp [h]

theorem add_missing_file_error_witness :
    pathExists ⟨fun _ => none, fun _ => .ioErr⟩ "/gone" = false ∧
    Texoxide.add ⟨fun _ => none, fun _ => .ioErr⟩ 5 [⟨"/a", 1, 1⟩] "/gone" =
      (.error .nonExistentFile, [⟨"/a", 1, 1⟩]) :=
  ⟨rfl, add_missing_file_error ⟨fun _ => none, fun _ => .ioErr⟩ 5
    [⟨"/a", 1, 1⟩] "/gone" rfl⟩

/-- **C7.** A failure of the existence probe on a single row does not
abort the cleanup pass: the run still succeeds, and every other row is
still checked and deleted or kept exactly as it would be had that row's
probe not failed. -/
theorem cleanup_row_failure_local (fs fs' : FS) (st : Store) (r : String)
    (hagree : ∀ q : String, q ≠ r → fs.stat q = fs'.stat q) :
    (Texoxide.cleanup fs st).1 = .ok () ∧
    ∀ e ∈ st, e.path ≠ r →
      (e ∈ (Texoxide.cleanup fs st).2 ↔ e ∈ (Texoxide.cleanup fs' st).2) := by
  refine ⟨rfl, fun e _ hne => ?_⟩
  show e ∈ Texoxide.cleanupStore fs st ↔ e ∈ Texoxide.cleanupStore fs' st
  rw [cleanupStore_eq_filter, cleanupStore_eq_filter]
  have : pathExists fs e.path = pathExists fs' e.path := by
    unfold pathExists
    rw [hagree e.path hne]
  simp [List.mem_filter, this]

theorem cleanup_row_failure_local_witness :
    (∀ q : String, q ≠ "/bad" →
      FS.stat ⟨fun p => if p = "/bad" then none else some true, fun _ => .ioErr⟩ q =
      FS.stat ⟨fun _ => some true, fun _ => .ioErr⟩ q) ∧
    (Texoxide.cleanup
      ⟨fun p => if p = "/bad" then none else some true, fun _ => .ioErr⟩
      [⟨"/ok", 3, 2⟩, ⟨"/bad", 1, 1⟩]).1 = .ok () ∧
    ((⟨"/ok", 3, 2⟩ : FileEntry) ∈ (Texoxide.cleanup
        ⟨fun p => if p = "/bad" then none else some true, fun _ => .ioErr⟩
        [⟨"/ok", 3, 2⟩, ⟨"/bad", 1, 1⟩]).2 ↔
      (⟨"/ok", 3, 2⟩ : FileEntry) ∈ (Texoxide.cleanup
        ⟨fun _ => some true, fun _ => .ioErr⟩
        [⟨"/ok", 3, 2⟩, ⟨"/bad", 1, 1⟩]).2) := by
  have hagree : ∀ q : String, q ≠ "/bad" →
      FS.stat ⟨fun p => if p = "/bad" then none else some true, fun _ => .ioErr⟩ q =
      FS.stat ⟨fun _ => some true, fun _ => .ioErr⟩ q := by
    intro q hq
    simp [hq]
  have h := cleanup_row_failure_local
    ⟨fun p => if p = "/bad" then none else some true, fun _ => .ioErr⟩
    ⟨fun _ => some true, fun _ => .ioErr⟩
    [⟨"/ok", 3, 2⟩, ⟨"/bad", 1, 1⟩] "/bad" hagree
  exact ⟨hagree, h.1, h.2 ⟨"/ok", 3, 2⟩ (by decide) (by decide)⟩

/-- **C10.** When `add` or `remove_entry` fails — missing target file,
path resolution or encoding failure, or no matching row to delete — the
persisted `files` table is left unchanged. -/
theorem failed_ops_preserve_store (fs : FS) (now : Nat) (st : Store)
    (p : String) (err : TxError) :
    ((Texoxide.add fs now st p).1 = .error err →
      (Texoxide.add fs now st p).2 = st) ∧
    ((Texoxide.remove_entry fs st p).1 = .error err →
      (Texoxide.remove_entry fs st p).2 = st) := by
  constructor
  · intro _
    unfold Texoxide.add at *
    by_cases h : pathExists fs p = false
    · simp [h]
    · rename_i hres
      simp only [Bool.not_eq_false] at h
      simp only [h, Bool.not_true, Bool.false_eq_true, if_false] at hres ⊢
      cases hca : fs.canonicalize p <;> simp [hca] at hres ⊢
  · intro hres
    unfold Texoxide.remove_entry at *
    by_cases h : st.countP (fun e => e.path = p) = 0
    all_goals by_cases hc : st.countP (fun e => e.path = canonKey fs p) = 0
    all_goals simp only [hc, if_true, if_false, reduceIte] at hres ⊢
    all_goals first
      | exact filter_ne_of_countP_zero st (canonKey fs p) hc
      | cases hres

theorem failed_ops_preserve_store_witness :
    (Texoxide.add ⟨fun _ => none, fun _ => .ioErr⟩ 7 [⟨"/a", 1, 1⟩] "/x").1 =
        .error .nonExistentFile ∧
    (Texoxide.add ⟨fun _ => none, fun _ => .ioErr⟩ 7 [⟨"/a", 1, 1⟩] "/x").2 =
        [⟨"/a", 1, 1⟩] ∧
    (Texoxide.remove_entry ⟨fun _ => none, fun _ => .ioErr⟩
        [⟨"/a", 1, 1⟩] "/x").1 = .error .notFound ∧
    (Texoxide.remove_entry ⟨fun _ => none, fun _ => .ioErr⟩
        [⟨"/a", 1, 1⟩] "/x").2 = [⟨"/a", 1, 1⟩] := by
  have h := failed_ops_preserve_store ⟨fun _ => none, fun _ => .ioErr⟩ 7
    [⟨"/a", 1, 1⟩] "/x" .nonExistentFile
  have h2 := failed_ops_preserve_store ⟨fun _ => none, fun _ => .ioErr⟩ 7
    [⟨"/a", 1, 1⟩] "/x" .notFound
  exact ⟨rfl, h.1 rfl, rfl, h2.2 rfl⟩

/-- **C3.** For a menu over a non-empty item list: the initial cursor is
`0`; `NavigateDown` from the last index wraps to `0` and otherwise
increments; `NavigateUp` from `0` wraps to the last index and otherwise
decrements; `Confirm` terminates with the current cursor; `Cancel`
terminates with no selection; any other event leaves the state
unchanged. -/
theorem menu_transitions (m : Menu) (i : Nat)
    (hne : m.items ≠ []) (hsel : m.selected = some i)
    (hi : i < m.items.length) :
    (∀ title : String, (Menu.new m.items title).selected = some 0) ∧
    menuStep m .navigateDown =
      some (Sum.inl
        { m with selected := some (if i = m.items.length - 1 then 0 else i + 1) }) ∧
    menuStep m .navigateUp =
      some (Sum.inl
        { m with selected := some (if i = 0 then m.items.length - 1 else i - 1) }) ∧
    menuStep m .confirm = some (Sum.inr (some i)) ∧
    menuStep m .cancel = some (Sum.inr none) ∧
    menuStep m .other = some (Sum.inl m) := by
  have hlen : m.items.length ≠ 0 := by
    intro h
    exact hne (List.length_eq_zero.mp h)
  have h1 : usizeSub1 m.items.length = some (m.items.length - 1) := by
    unfold usizeSub1
    simp [hlen]
  refine ⟨fun _ => rfl, ?_, ?_, ?_, rfl, rfl⟩
  · have heq : (if m.items.length ≤ i + 1 then 0 else i + 1) =
        (if i = m.items.length - 1 then 0 else i + 1) := by
      split_ifs <;> omega
    simp [menuStep, Menu.next, hsel, h1, heq]
  · by_cases h0 : i = 0
    · simp [menuStep, Menu.previous, hsel, h0, h1]
    · simp [menuStep, Menu.previous, hsel, h0]
  · simp [menuStep, hsel]

theorem menu_transitions_witness :
    (⟨["a", "b", "c"], some 2, "t"⟩ : Menu).items ≠ [] ∧
    menuStep ⟨["a", "b", "c"], some 2, "t"⟩ .navigateDown =
      some (Sum.inl ⟨["a", "b", "c"], some 0, "t"⟩) ∧
    menuStep ⟨["a", "b", "c"], some 2, "t"⟩ .navigateUp =
      some (Sum.inl ⟨["a", "b", "c"], some 1, "t"⟩) ∧
    menuStep ⟨["a", "b", "c"], some 2, "t"⟩ .confirm =
      some (Sum.inr (some 2)) ∧
    menuStep ⟨["a", "b", "c"], some 2, "t"⟩ .cancel =
      some (Sum.inr none) := by
  have h := menu_transitions ⟨["a", "b", "c"], some 2, "t"⟩ 2
    (by decide) rfl (by decide)
  exact ⟨by decide, h.2.1, h.2.2.1, h.2.2.2.1, h.2.2.2.2.1⟩

/-- **C9.** Menu navigation is safe only on a non-empty item list:
`Menu::new` selects index `0` even over an empty list; `next` underflows
(`items.len() - 1` panics) exactly on an empty list; `previous` at
cursor `0` underflows exactly on an empty list, and away from cursor `0`
never evaluates `items.len() - 1`. -/
theorem menu_nonempty_precondition :
    (∀ (items : List String) (title : String),
      (Menu.new items title).selected = some 0) ∧
    (∀ (m : Menu) (i : Nat), m.selected = some i →
      (m.next = none ↔ m.items = [])) ∧
    (∀ m : Menu, m.selected = some 0 →
      (m.previous = none ↔ m.items = [])) ∧
    (∀ (m : Menu) (i : Nat), m.selected = some i → i ≠ 0 →
      m.previous ≠ none) := by
  refine ⟨fun _ _ => rfl, ?_, ?_, ?_⟩
  · intro m i h
    by_cases hl : m.items.length = 0
    · have he : m.items = [] := List.length_eq_zero.mp hl
      simp [Menu.next, h, usizeSub1, hl, he]
    · have he : ¬ m.items = [] := fun hh => hl (by simp [hh])
      simp [Menu.next, h, usizeSub1, hl, he]
  · intro m h
    by_cases hl : m.items.length = 0
    · have he : m.items = [] := List.length_eq_zero.mp hl
      simp [Menu.previous, h, usizeSub1, hl, he]
    · have he : ¬ m.items = [] := fun hh => hl (by simp [hh])
      simp [Menu.previous, h, usizeSub1, hl, he]
  · intro m i h hne0
    simp [Menu.previous, h, hne0]

theorem menu_nonempty_precondition_witness :
    (Menu.new [] "t").selected = some 0 ∧
    Menu.next ⟨[], some 0, "t"⟩ = none ∧
    Menu.previous ⟨[], some 0, "t"⟩ = none ∧
    Menu.previous ⟨["a"], some 1, "t"⟩ ≠ none :=
  ⟨menu_nonempty_precondition.1 [] "t",
    (menu_nonempty_precondition.2.1 ⟨[], some 0, "t"⟩ 0 rfl).mpr rfl,
    (menu_nonempty_precondition.2.2.1 ⟨[], some 0, "t"⟩ rfl).mpr rfl,
    menu_nonempty_precondition.2.2.2 ⟨["a"], some 1, "t"⟩ 1 rfl (by decide)⟩

/-- **C1.** For a canonical path `p` of an existing file and a table with
no row for `p`, every `add fs t · p` call succeeds; a sequence of
`N = (t :: ts).length` such calls leaves the table extended by exactly
one row for `p`, whose frequency is `N` and whose `last_accessed` is the
timestamp of the final call; the first call inserts the row with
frequency `1`, and each later call increments the frequency by `1` and
refreshes `last_accessed` to that call's `now`. -/
theorem add_sequence_frecency (fs : FS) (st : Store) (p : String)
    (t : Nat) (ts : List Nat)
    (hex : pathExists fs p = true) (hca : fs.canonicalize p = .ok p)
    (hfree : ∀ e ∈ st, e.path ≠ p) :
    (∀ (now : Nat) (st0 : Store), (Texoxide.add fs now st0 p).1 = .ok ()) ∧
    (Texoxide.add fs t st p).2 = st ++ [⟨p, t, 1⟩] ∧
    (∀ (now t1 f1 : Nat) (st1 : Store), (∀ e ∈ st1, e.path ≠ p) →
      (Texoxide.add fs now (st1 ++ [⟨p, t1, f1⟩]) p).2 =
        st1 ++ [⟨p, now, f1 + 1⟩]) ∧
    addSeq fs p st (t :: ts) =
      st ++ [⟨p, (t :: ts).getLastD 0, (t :: ts).length⟩] ∧
    (addSeq fs p st (t :: ts)).countP (fun e => e.path = p) = 1 := by
  have hstep : ∀ (now : Nat) (st0 : Store),
      Texoxide.add fs now st0 p = (.ok (), upsert st0 p now) :=
    fun now st0 => add_ok fs now st0 p hex hca
  have hone : (Texoxide.add fs t st p).2 = st ++ [⟨p, t, 1⟩] := by
    rw [hstep t st]
    exact upsert_not_mem st p t hfree
  have hmain : addSeq fs p st (t :: ts) =
      st ++ [⟨p, (t :: ts).getLastD 0, (t :: ts).length⟩] := by
    show addSeq fs p (Texoxide.add fs t st p).2 ts = _
    rw [hone, addSeq_conflicts fs p hex hca ts st t 1 hfree]
    have h1 : (t :: ts).getLastD 0 = ts.getLastD t := by
      cases ts <;> simp [List.getLastD]
    have h2 : 1 + ts.length = (t :: ts).length := by simp; omega
    rw [h1, h2]
  refine ⟨fun now st0 => by rw [hstep now st0], hone,
    fun now t1 f1 st1 hfree1 => ?_, hmain, ?_⟩
  · rw [hstep now _]
    exact upsert_conflict st1 p now t1 f1 hfree1
  · rw [hmain, List.countP_append]
    have h0 : st.countP (fun e => e.path = p) = 0 := by
      rw [List.countP_eq_zero]
      intro e he
      simpa using hfree e he
    simp [h0, List.countP_cons]

theorem add_sequence_frecency_witness :
    pathExists ⟨fun _ => some true, fun q => .ok q⟩ "/w" = true ∧
    FS.canonicalize ⟨fun _ => some true, fun q => .ok q⟩ "/w" = .ok "/w" ∧
    addSeq ⟨fun _ => some true, fun q => .ok q⟩ "/w"
      [⟨"/u", 3, 7⟩] [4, 9] = [⟨"/u", 3, 7⟩, ⟨"/w", 9, 2⟩] ∧
    (addSeq ⟨fun _ => some true, fun q => .ok q⟩ "/w"
      [⟨"/u", 3, 7⟩] [4, 9]).countP (fun e => e.path = "/w") = 1 := by
  have h := add_sequence_frecency ⟨fun _ => some true, fun q => .ok q⟩
    [⟨"/u", 3, 7⟩] "/w" 4 [9] rfl rfl (by decide)
  exact ⟨rfl, rfl, h.2.2.2.1, h.2.2.2.2⟩

/-- **C4.** `remove_entry` resolves its argument to the canonical key —
falling back to the raw string when canonicalization fails — deletes the
matching row, and fails with `notFound` exactly when no stored row
carries that key; moreover, after any successful `add` of the same raw
path, `remove_entry` succeeds and a subsequent `query` never returns the
canonical key again. -/
theorem remove_resolution_notfound (fs : FS) (st : Store) (p : String) :
    ((Texoxide.remove_entry fs st p).1 = .error .notFound ↔
      st.countP (fun e => e.path = canonKey fs p) = 0) ∧
    (Texoxide.remove_entry fs st p).2 =
      st.filter (fun e => e.path ≠ canonKey fs p) ∧
    (∀ (now : Nat) (st1 : Store),
      Texoxide.add fs now st p = (.ok (), st1) →
      (Texoxide.remove_entry fs st1 p).1 = .ok () ∧
      ∀ (term q : String),
        q ∈ Texoxide.query (Texoxide.remove_entry fs st1 p).2 term →
          q ≠ canonKey fs p) := by
  refine ⟨?_, remove_entry_snd fs st p, ?_⟩
  · unfold Texoxide.remove_entry
    by_cases h : st.countP (fun e => e.path = canonKey fs p) = 0 <;>
      simp [h]
  · intro now st1 hadd
    by_cases hex : pathExists fs p
    · cases hca : fs.canonicalize p with
      | ok abs =>
        have hkey : canonKey fs p = abs := by unfold canonKey; rw [hca]
        unfold Texoxide.add at hadd
        simp only [hex, Bool.not_true, Bool.false_eq_true, if_false,
          hca] at hadd
        have hst1 : st1 = upsert st abs now := by
          cases hadd
          rfl
        have hcount : st1.countP (fun e => e.path = canonKey fs p) ≠ 0 := by
          intro hzero
          rw [List.countP_eq_zero] at hzero
          obtain ⟨e, he, hep⟩ := upsert_mem st abs now
          rw [← hst1] at he
          exact hzero e he (by simp [hep, hkey])
        constructor
        · unfold Texoxide.remove_entry
          simp [hcount]
        · intro term q hq
          obtain ⟨e, he, rfl⟩ := mem_query _ term q hq
          rw [remove_entry_snd fs st1 p] at he
          have := List.mem_filter.mp he |>.2
          simpa using this
      | ioErr =>
        unfold Texoxide.add at hadd
        simp [hex, hca] at hadd
      | notUtf8 =>
        unfold Texoxide.add at hadd
        simp [hex, hca] at hadd
    · unfold Texoxide.add at hadd
      simp only [Bool.not_eq_true] at hex
      simp [hex] at hadd

theorem remove_resolution_notfound_witness :
    (Texoxide.remove_entry ⟨fun _ => some true, fun q => .ok q⟩
      [] "/w").1 = .error .notFound ∧
    Texoxide.add ⟨fun _ => some true, fun q => .ok q⟩ 5 [] "/w" =
      (.ok (), [⟨"/w", 5, 1⟩]) ∧
    (Texoxide.remove_entry ⟨fun _ => some true, fun q => .ok q⟩
      [⟨"/w", 5, 1⟩] "/w").1 = .ok () := by
  have h := remove_resolution_notfound
    ⟨fun _ => some true, fun q => .ok q⟩ [] "/w"
  exact ⟨h.1.mpr rfl, rfl, (h.2.2 5 [⟨"/w", 5, 1⟩] rfl).1⟩

/-- **C2, counterexample.** `query` does not match the search term as a
literal substring: the stored path `"abc"` is returned for the term
`"a_c"` — the `_` acts as a SQL `LIKE` single-character wildcard — yet
`"a_c"` does not occur as a substring of `"abc"`. -/
theorem query_literal_substring_counterexample :
    Texoxide.query [⟨"abc", 0, 1⟩] "a_c" = ["abc"] ∧
    containsSub "abc".data "a_c".data = false := by
  constructor <;> rfl

/-- **C2, amended.** `query(term)` returns only stored paths matching
the SQLite `LIKE` pattern `%term%` with escape `\` (so `%` and `_`
inside the term act as wildcards and ASCII letters match
case-insensitively), ordered non-increasing by frequency with ties
non-increasing by `last_accessed`, with at most 20 results; the empty
term's pattern matches every stored entry, so the empty term returns
all entries up to the cap. -/
theorem query_like_ranking (st : Store) (term : String) :
    (∀ q ∈ Texoxide.query st term, ∃ e ∈ st, e.path = q ∧
      likeMatch '\\' ("%" ++ term ++ "%").data q.data = true) ∧
    List.Sorted Texoxide.RankGE (Texoxide.queryRows st term) ∧
    Texoxide.query st term =
      (Texoxide.queryRows st term).map (fun e => e.path) ∧
    (Texoxide.query st term).length ≤ 20 ∧
    (∀ s : List Char, likeMatch '\\' ("%" ++ "" ++ "%").data s = true) ∧
    (Texoxide.query st "").length = min 20 st.length := by
  refine ⟨?_, ?_, rfl, ?_, like_pattern_empty, ?_⟩
  · intro q hq
    obtain ⟨e, he, rfl⟩ := List.mem_map.mp hq
    obtain ⟨hst, hlike⟩ := mem_queryRows st term e he
    exact ⟨e, hst, rfl, hlike⟩
  · exact List.Pairwise.sublist (List.take_sublist _ _)
      (List.sorted_insertionSort Texoxide.RankGE _)
  · show ((Texoxide.queryRows st term).map (fun e => e.path)).length ≤ 20
    rw [List.length_map]
    unfold Texoxide.queryRows
    rw [List.length_take]
    exact min_le_left _ _
  · have hfilter : st.filter
        (fun e => likeMatch '\\' ("%" ++ "" ++ "%").data e.path.data) = st :=
      List.filter_eq_self.mpr (fun e _ => like_pattern_empty _)
    show ((Texoxide.queryRows st "").map (fun e => e.path)).length = _
    rw [List.length_map]
    unfold Texoxide.queryRows
    rw [List.length_take, hfilter,
      (List.perm_insertionSort Texoxide.RankGE st).length_eq]

theorem query_like_ranking_witness :
    (∃ e ∈ ([⟨"ab", 1, 2⟩, ⟨"c", 0, 1⟩] : Store), FileEntry.path e = "ab" ∧
      likeMatch '\\' ("%" ++ "a" ++ "%").data "ab".data = true) ∧
    (Texoxide.query [⟨"ab", 1, 2⟩, ⟨"c", 0, 1⟩] "").length = min 20 2 := by
  have h := query_like_ranking [⟨"ab", 1, 2⟩, ⟨"c", 0, 1⟩] "a"
  exact ⟨h.1 "ab" (by decide), h.2.2.2.2.2⟩

theorem cleanup_filters_existing_witness :
    Texoxide.cleanupStore ⟨fun p => some (p = "/keep"), fun _ => .ioErr⟩
      [⟨"/keep", 0, 1⟩, ⟨"/gone", 2, 3⟩] =
      List.filter (fun e => pathExists
        ⟨fun p => some (p = "/keep"), fun _ => .ioErr⟩ e.path)
        [⟨"/keep", 0, 1⟩, ⟨"/gone", 2, 3⟩] ∧
    ((⟨"/keep", 0, 1⟩ : FileEntry) ∈ Texoxide.cleanupStore
        ⟨fun p => some (p = "/keep"), fun _ => .ioErr⟩
        [⟨"/keep", 0, 1⟩, ⟨"/gone", 2, 3⟩] ↔
      ((⟨"/keep", 0, 1⟩ : FileEntry) ∈
          ([⟨"/keep", 0, 1⟩, ⟨"/gone", 2, 3⟩] : Store) ∧
        pathExists ⟨fun p => some (p = "/keep"), fun _ => .ioErr⟩
          "/keep" = true)) := by
  have h := cleanup_filters_existing
    ⟨fun p => some (p = "/keep"), fun _ => .ioErr⟩
    [⟨"/keep", 0, 1⟩, ⟨"/gone", 2, 3⟩]
  exact ⟨h.1, h.2 ⟨"/keep", 0, 1⟩⟩
